import Mathlib

/-!
Verification of the passenger-consolidation core of the scan-go-traveler
repository (src/src/pages/Index.tsx): name normalization (`normalizeName`),
fuzzy name matching (`namesMatch`), passenger consolidation
(`consolidateData`) and date formatting (`formatDate`), shallowly embedded
in Lean.  JavaScript strings are modelled as Lean `String`s; record fields
that may be absent (`undefined`) are modelled as the empty string, which is
observationally equivalent for every operation the code performs on them
(`?.`-chains, `||` defaulting and truthiness tests).
-/

namespace ScanGo

/-- One extracted document record / consolidated passenger record.
All fields of the TypeScript `ExtractedData` interface are optional strings;
absent fields are modelled as `""`. -/
structure ExtractedData where
  name : String := ""
  passportNumber : String := ""
  dateOfBirth : String := ""
  nationality : String := ""
  passportIssueDate : String := ""
  expiryDate : String := ""
  visaType : String := ""
  flightNumber : String := ""
  bookingReference : String := ""
  ticketNumber : String := ""
  departure : String := ""
  arrival : String := ""
  transitStop : String := ""
  seatNumber : String := ""
  inflightMeal : String := ""
  documentType : String := ""
deriving Repr, DecidableEq, Inhabited

/-- Model of the JavaScript regex class `\s` used in `replace(/[^a-z\s]/g)`
and `replace(/\s+/g, ' ')`. -/
def jsWS (c : Char) : Bool := c.isWhitespace

/-- Characters kept by `replace(/[^a-z\s]/g, '')`: lowercase ASCII letters
and whitespace. -/
def isKept (c : Char) : Bool := ('a' ≤ c && c ≤ 'z') || jsWS c

/-- JavaScript `String.prototype.split(sep)` for a single-character
separator, on character lists (keeps empty pieces, like JS). -/
def splitChar (sep : Char) : List Char → List (List Char)
  | [] => [[]]
  | c :: rest =>
    match splitChar sep rest with
    | [] => [[c]]
    | w :: ws => if c = sep then [] :: w :: ws else (c :: w) :: ws

/-- JavaScript `replace(/\s+/g, ' ')`: collapse every run of whitespace
to a single space. -/
def collapseWS : List Char → List Char
  | [] => []
  | [c] => [if jsWS c then ' ' else c]
  | c :: d :: rest =>
    if jsWS c && jsWS d then collapseWS (d :: rest)
    else (if jsWS c then ' ' else c) :: collapseWS (d :: rest)

/-- JavaScript `String.prototype.trim()` on character lists. -/
def trimChars (cs : List Char) : List Char :=
  ((cs.dropWhile jsWS).reverse.dropWhile jsWS).reverse

/-- JavaScript `Array.prototype.join(' ')` on lists of words. -/
def joinSpace : List (List Char) → List Char
  | [] => []
  | [w] => w
  | w :: ws => w ++ ' ' :: joinSpace ws

/-- The honorific/title list of `normalizeName` (Index.tsx line 76). -/
def honorifics : List String := ["mr", "mrs", "ms", "miss", "dr", "prof", "sir", "madam"]

/-- Is this word one of the configured honorific tokens? -/
def isHonorific (w : List Char) : Bool := honorifics.contains (String.mk w)

/-- The word list of `normalizeName` just before the final `join(' ')`:
the normalized string split on spaces with leading honorifics removed
(the `while … words.shift()` loop, i.e. `dropWhile`). -/
def normalizeWords (name : String) : List (List Char) :=
  if name = "" then []
  else
    let cleanName : List Char :=
      if name.toList.contains '?' then
        let parts := splitChar '?' name.toList
        let p1 := parts.getD 1 []
        if !p1.isEmpty then p1 else parts.getD 0 []
      else name.toList
    let lowered := cleanName.map Char.toLower
    let filtered := lowered.filter isKept
    let normalized := trimChars (collapseWS filtered)
    let words := splitChar ' ' normalized
    words.dropWhile isHonorific

/-- `normalizeName` (Index.tsx lines 64-92): take the part after `?` when
present, lowercase, strip every character that is not a lowercase letter or
whitespace, collapse whitespace runs, trim, then drop honorifics from the
beginning of the word list and re-join with single spaces. -/
def normalizeName (name : String) : String :=
  String.mk (joinSpace (normalizeWords name))

/-- The word list used by `namesMatch`:
`normalized.split(' ').filter(w => w.length > 0)`. -/
def wordsOf (s : String) : List (List Char) :=
  (splitChar ' ' s.toList).filter (fun w => !w.isEmpty)

/-- `namesMatch` (Index.tsx lines 94-118): empty normalized names never
match; exact equality matches; otherwise the first words must be equal and
at least 2 words must occur in both word lists. -/
def namesMatch (name1 name2 : String) : Bool :=
  let normalized1 := normalizeName name1
  let normalized2 := normalizeName name2
  if normalized1 = "" ∨ normalized2 = "" then false
  else if normalized1 = normalized2 then true
  else
    let words1 := wordsOf normalized1
    let words2 := wordsOf normalized2
    if words1.length = 0 ∨ words2.length = 0 then false
    else if words1.head? ≠ words2.head? then false
    else decide (2 ≤ (words1.filter (fun w => words2.contains w)).length)

/-- JavaScript `a || b` on strings (first operand when truthy, i.e.
non-empty, else the second). -/
def jsOr (a b : String) : String := if a = "" then b else a

/-- The merge object literal of `consolidateData` (Index.tsx lines 150-167):
identity fields keep the existing value when non-empty, itinerary fields
take the incoming value when non-empty; the name prefers the side that
carries a passport number.  The literal has no `documentType` key, so the
merged record's `documentType` is absent (`""`). -/
def mergeRecords (existing item : ExtractedData) : ExtractedData where
  name := if existing.passportNumber ≠ "" then existing.name
          else if item.passportNumber ≠ "" then item.name else existing.name
  passportNumber := jsOr existing.passportNumber item.passportNumber
  dateOfBirth := jsOr existing.dateOfBirth item.dateOfBirth
  nationality := jsOr existing.nationality item.nationality
  passportIssueDate := jsOr existing.passportIssueDate item.passportIssueDate
  expiryDate := jsOr existing.expiryDate item.expiryDate
  visaType := jsOr item.visaType existing.visaType
  flightNumber := jsOr item.flightNumber existing.flightNumber
  bookingReference := jsOr item.bookingReference existing.bookingReference
  ticketNumber := jsOr item.ticketNumber existing.ticketNumber
  departure := jsOr item.departure existing.departure
  arrival := jsOr item.arrival existing.arrival
  transitStop := jsOr item.transitStop existing.transitStop
  seatNumber := jsOr item.seatNumber existing.seatNumber
  inflightMeal := jsOr item.inflightMeal existing.inflightMeal
  documentType := ""

/-- JavaScript `String.prototype.trim()` on strings. -/
def jsTrim (s : String) : String := String.mk (trimChars s.toList)

/-- Trimmed passport number of a record (`r.passportNumber?.trim()`). -/
def pTrim (r : ExtractedData) : String := jsTrim r.passportNumber

/-- Primary-key lookup (Index.tsx lines 126-132): only runs when the
incoming trimmed passport number is non-empty; finds the first passenger
whose trimmed passport number equals it. -/
def findPassportIdx (passengers : List ExtractedData) (itemPassport : String) : Option Nat :=
  if itemPassport ≠ "" then
    passengers.findIdx? (fun p => pTrim p == itemPassport)
  else none

/-- Predicate of the fallback name lookup (Index.tsx lines 137-144):
candidates with a non-empty trimmed passport number different from the
incoming one are excluded; otherwise the candidate matches when its name is
truthy and `namesMatch` holds. -/
def nameLookupPred (itemPassport itemName : String) (p : ExtractedData) : Bool :=
  if itemPassport ≠ "" ∧ pTrim p ≠ "" ∧ itemPassport ≠ pTrim p then false
  else decide (p.name ≠ "") && namesMatch p.name itemName

/-- Fallback name lookup (Index.tsx lines 136-145): only runs when the
incoming record's trimmed name is non-empty. -/
def findNameIdx (passengers : List ExtractedData) (itemPassport itemName : String) : Option Nat :=
  if jsTrim itemName ≠ "" then passengers.findIdx? (nameLookupPred itemPassport itemName)
  else none

/-- One iteration of the `dataArray.forEach` body of `consolidateData`
(Index.tsx lines 123-172): passport lookup first, then name lookup, then
merge in place or push a copy. -/
def consolidateStep (passengers : List ExtractedData) (item : ExtractedData) : List ExtractedData :=
  let itemPassport := pTrim item
  let idx : Option Nat :=
    match findPassportIdx passengers itemPassport with
    | some i => some i
    | none => findNameIdx passengers itemPassport item.name
  match idx with
  | some i => passengers.set i (mergeRecords (passengers.getD i default) item)
  | none => passengers ++ [item]

/-- `consolidateData` (Index.tsx lines 120-175). -/
def consolidateData (dataArray : List ExtractedData) : List ExtractedData :=
  dataArray.foldl consolidateStep []

/-- `consolidateStep` instrumented with provenance: each working passenger
also carries the list of input records merged into it.  The lookups are
performed on the projected record parts, so the instrumentation is
invisible to the algorithm. -/
def consolidateStepAnn (entries : List (ExtractedData × List ExtractedData))
    (item : ExtractedData) : List (ExtractedData × List ExtractedData) :=
  let passengers := entries.map Prod.fst
  let itemPassport := pTrim item
  let idx : Option Nat :=
    match findPassportIdx passengers itemPassport with
    | some i => some i
    | none => findNameIdx passengers itemPassport item.name
  match idx with
  | some i =>
    entries.set i (mergeRecords (passengers.getD i default) item,
                   (entries.getD i default).2 ++ [item])
  | none => entries ++ [(item, [item])]

/-- `consolidateData` with provenance: projecting away the second
components recovers `consolidateData`. -/
def consolidateAnn (dataArray : List ExtractedData) :
    List (ExtractedData × List ExtractedData) :=
  dataArray.foldl consolidateStepAnn []

/-- Modelled from the spec: the name-variant pipeline `variantsOf` of spec
§4.1.  No such function exists in src/src/pages/Index.tsx (its
`normalizeName` never splits on `/`); this definition follows the spec's
words so that the code's behaviour can be compared against it: split on
`/`, within each segment prefer the part after `?`, lowercase, keep letters
and spaces, collapse and trim whitespace, drop honorific and empty words
everywhere, and keep one joined variant per segment that still has words. -/
def specVariantsOf (rawName : String) : List String :=
  if rawName = "" then []
  else
    (splitChar '/' rawName.toList).filterMap (fun seg =>
      let seg2 : List Char :=
        if seg.contains '?' then
          let qs := splitChar '?' seg
          let p1 := qs.getD 1 []
          if !p1.isEmpty then p1 else qs.getD 0 []
        else seg
      let norm := trimChars (collapseWS ((seg2.map Char.toLower).filter isKept))
      let ws := (splitChar ' ' norm).filter (fun w => !w.isEmpty && !isHonorific w)
      if ws.isEmpty then none else some (String.mk (joinSpace ws)))

/-- Month names used by `formatDate` (Index.tsx line 254). -/
def monthsEn : List String :=
  ["Jan", "Feb", "Mar", "Apr", "May", "Jun", "Jul", "Aug", "Sep", "Oct", "Nov", "Dec"]

/-- The regex `/^\d{2}-[A-Za-z]{3}-\d{4}$/` of `formatDate`. -/
def matchesDDMMMYYYY (s : String) : Bool :=
  match s.toList with
  | [d1, d2, h1, a1, a2, a3, h2, y1, y2, y3, y4] =>
    d1.isDigit && d2.isDigit && h1 = '-' && a1.isAlpha && a2.isAlpha && a3.isAlpha &&
      h2 = '-' && y1.isDigit && y2.isDigit && y3.isDigit && y4.isDigit
  | _ => false

/-- Gregorian leap year. -/
def isLeap (y : Nat) : Bool := (y % 4 = 0 && y % 100 ≠ 0) || y % 400 = 0

/-- Days in a month. -/
def daysInMonth (y m : Nat) : Nat :=
  if m = 2 then (if isLeap y then 29 else 28)
  else if m = 4 || m = 6 || m = 9 || m = 11 then 30 else 31

/-- Parse a decimal digit character list. -/
def digitsToNat (cs : List Char) : Nat :=
  cs.foldl (fun acc c => acc * 10 + (c.toNat - '0'.toNat)) 0

/-- Modelled from the spec: the JavaScript `new Date(string)` built-in used
by `formatDate` is a platform API, not repository code.  Spec §4.4 calls it
"permissive, locale-agnostic parsing of common OCR date spellings"; it is
modelled here for the documented ISO `YYYY-MM-DD` format, with calendar
validation, and accessors (`getDate`/`getMonth`/`getFullYear`) assumed to
run in a UTC environment.  Returns `(year, month, day)` or `none` when
parsing fails (`Invalid Date`, i.e. `isNaN(date.getTime())`). -/
def jsParseDate (s : String) : Option (Nat × Nat × Nat) :=
  match s.toList with
  | [y1, y2, y3, y4, h1, m1, m2, h2, d1, d2] =>
    if y1.isDigit && y2.isDigit && y3.isDigit && y4.isDigit && h1 = '-' &&
        m1.isDigit && m2.isDigit && h2 = '-' && d1.isDigit && d2.isDigit then
      let y := digitsToNat [y1, y2, y3, y4]
      let m := digitsToNat [m1, m2]
      let d := digitsToNat [d1, d2]
      if 1 ≤ m && m ≤ 12 && 1 ≤ d && d ≤ daysInMonth y m then some (y, m, d)
      else none
    else none
  | _ => none

/-- `String(day).padStart(2, '0')`. -/
def pad2 (n : Nat) : String := if n < 10 then "0" ++ toString n else toString n

/-- `formatDate` (Index.tsx lines 251-278): empty input gives `""`, input
already matching `DD-MMM-YYYY` is returned unchanged, a parseable date is
reformatted to `DD-MMM-YYYY`, and anything else is returned unchanged. -/
def formatDate (dateValue : String) : String :=
  if dateValue = "" then ""
  else if matchesDDMMMYYYY dateValue then dateValue
  else
    match jsParseDate dateValue with
    | some (y, m, d) => pad2 d ++ "-" ++ monthsEn.getD (m - 1) "" ++ "-" ++ toString y
    | none => dateValue

/-- A record with every field absent. -/
def emptyRecord : ExtractedData := {}

/-- Lexicographic (code-point) comparison of words, used to state
word-permutation hypotheses ("equal after lexicographically sorting their
word lists"), as JavaScript `Array.prototype.sort()` compares strings. -/
def lexLe : List Char → List Char → Bool
  | [], _ => true
  | _ :: _, [] => false
  | a :: as, b :: bs => if a < b then true else if b < a then false else lexLe as bs

/-- Spec §8 example record `{passportNumber:"P1", name:"John Smith"}`. -/
def c2r1 : ExtractedData := { passportNumber := "P1", name := "John Smith" }

/-- Spec §8 example record `{passportNumber:"P2", name:"John Smith"}`. -/
def c2r2 : ExtractedData := { passportNumber := "P2", name := "John Smith" }

/-- Spec §8 example record `{passportNumber:"P1", flightNumber:"AA100"}`. -/
def c3item : ExtractedData := { passportNumber := "P1", flightNumber := "AA100" }

/-- First record of the idempotence counterexample: a passportless name. -/
def c6a : ExtractedData := { name := "john smith" }

/-- Second record of the idempotence counterexample: a passportless name
that shares only one word with `c6a`'s name, so the two stay separate. -/
def c6b : ExtractedData := { name := "john kim lee" }

/-- Third record of the idempotence counterexample: it name-matches `c6a`
(2 common words) and carries a passport number, so the merge overwrites the
first passenger's name with a name that now shares 2 words with `c6b`'s. -/
def c6t : ExtractedData := { name := "john smith kim", passportNumber := "P1" }

/-- A passportless record used to witness the distinctness invariant. -/
def w10a : ExtractedData := { name := "alice" }

/-- Another passportless record used to witness the distinctness invariant. -/
def w10b : ExtractedData := { name := "bob" }

/-- Lexicographic insertion into a sorted word list. -/
def insertWord (w : List Char) : List (List Char) → List (List Char)
  | [] => [w]
  | x :: xs => if lexLe w x then w :: x :: xs else x :: insertWord w xs

/-- Lexicographic insertion sort on word lists, used to state the
"equal after lexicographically sorting their word lists" hypothesis. -/
def sortWords : List (List Char) → List (List Char)
  | [] => []
  | w :: ws => insertWord w (sortWords ws)

/-- A single passported record used to witness idempotence. -/
def c6w : ExtractedData := { name := "solo", passportNumber := "W1" }

/-- No two distinct positions of the list carry the same non-empty trimmed
passport number. -/
def DistinctP (l : List ExtractedData) : Prop :=
  ∀ (i j : Nat) (a b : ExtractedData),
    i ≠ j → l[i]? = some a → l[j]? = some b → pTrim a = pTrim b → pTrim a = ""

/-- Every working passenger has a non-empty trimmed passport number. -/
def TrimsNE (l : List ExtractedData) : Prop := ∀ x ∈ l, pTrim x ≠ ""

/-- Invariant of an instrumented working passenger: its passport field is
never whitespace-only, and every input record merged into it either had no
trimmed passport number or had exactly the passenger's one. -/
def GoodEntry (e : ExtractedData × List ExtractedData) : Prop :=
  (e.1.passportNumber ≠ "" → pTrim e.1 ≠ "") ∧
  ∀ r ∈ e.2, pTrim r = "" ∨ pTrim r = pTrim e.1

/-! ### Basic facts about the embedded operations -/

theorem pTrim_of_passport_empty {r : ExtractedData} (h : r.passportNumber = "") :
    pTrim r = "" := by
  simp [pTrim, h, jsTrim, trimChars]

theorem passport_ne_of_pTrim_ne {r : ExtractedData} (h : pTrim r ≠ "") :
    r.passportNumber ≠ "" :=
  fun he => h (pTrim_of_passport_empty he)

theorem mergeRecords_passport (e item : ExtractedData) :
    (mergeRecords e item).passportNumber = jsOr e.passportNumber item.passportNumber := rfl

theorem pTrim_merge_of_ne {e : ExtractedData} (item : ExtractedData)
    (h : e.passportNumber ≠ "") : pTrim (mergeRecords e item) = pTrim e := by
  simp [pTrim, mergeRecords_passport, jsOr, h]

theorem pTrim_merge_of_eq {e : ExtractedData} (item : ExtractedData)
    (h : e.passportNumber = "") : pTrim (mergeRecords e item) = pTrim item := by
  simp [pTrim, mergeRecords_passport, jsOr, h]

theorem findPassportIdx_some {acc : List ExtractedData} {ip : String} {i : Nat}
    (h : findPassportIdx acc ip = some i) :
    ip ≠ "" ∧ ∃ e, acc[i]? = some e ∧ pTrim e = ip := by
  unfold findPassportIdx at h
  split at h
  · rename_i hip
    rw [List.findIdx?_eq_some_iff_getElem] at h
    obtain ⟨hlt, hpe, -⟩ := h
    refine ⟨hip, acc[i], List.getElem?_eq_getElem hlt, ?_⟩
    simpa using hpe
  · exact absurd h (by simp)

theorem findPassportIdx_none {acc : List ExtractedData} {ip : String}
    (h : findPassportIdx acc ip = none) (hip : ip ≠ "") :
    ∀ x ∈ acc, pTrim x ≠ ip := by
  unfold findPassportIdx at h
  rw [if_pos hip, List.findIdx?_eq_none_iff] at h
  intro x hx
  simpa using h x hx

theorem findNameIdx_some {acc : List ExtractedData} {ip nm : String} {i : Nat}
    (h : findNameIdx acc ip nm = some i) :
    ∃ e, acc[i]? = some e ∧ nameLookupPred ip nm e = true := by
  unfold findNameIdx at h
  split at h
  · rw [List.findIdx?_eq_some_iff_getElem] at h
    obtain ⟨hlt, hpe, -⟩ := h
    exact ⟨acc[i], List.getElem?_eq_getElem hlt, hpe⟩
  · exact absurd h (by simp)

theorem nameLookupPred_no_cross {ip nm : String} {p : ExtractedData}
    (h : nameLookupPred ip nm p = true) :
    ¬(ip ≠ "" ∧ pTrim p ≠ "" ∧ ip ≠ pTrim p) := by
  unfold nameLookupPred at h
  intro hc
  rw [if_pos hc] at h
  exact Bool.false_ne_true h

/-! ### Computation lemmas for one consolidation step -/

theorem consolidateStep_of_pp_some {acc : List ExtractedData} {item : ExtractedData} {i : Nat}
    (h : findPassportIdx acc (pTrim item) = some i) :
    consolidateStep acc item = acc.set i (mergeRecords (acc.getD i default) item) := by
  simp only [consolidateStep]
  rw [h]

theorem consolidateStep_of_name_some {acc : List ExtractedData} {item : ExtractedData} {i : Nat}
    (h1 : findPassportIdx acc (pTrim item) = none)
    (h2 : findNameIdx acc (pTrim item) item.name = some i) :
    consolidateStep acc item = acc.set i (mergeRecords (acc.getD i default) item) := by
  simp only [consolidateStep]
  rw [h1, h2]

theorem consolidateStep_of_none {acc : List ExtractedData} {item : ExtractedData}
    (h1 : findPassportIdx acc (pTrim item) = none)
    (h2 : findNameIdx acc (pTrim item) item.name = none) :
    consolidateStep acc item = acc ++ [item] := by
  simp only [consolidateStep]
  rw [h1, h2]

theorem consolidateStepAnn_of_pp_some {entries : List (ExtractedData × List ExtractedData)}
    {item : ExtractedData} {i : Nat}
    (h : findPassportIdx (entries.map Prod.fst) (pTrim item) = some i) :
    consolidateStepAnn entries item =
      entries.set i (mergeRecords ((entries.map Prod.fst).getD i default) item,
                     (entries.getD i default).2 ++ [item]) := by
  simp only [consolidateStepAnn]
  rw [h]

theorem consolidateStepAnn_of_name_some {entries : List (ExtractedData × List ExtractedData)}
    {item : ExtractedData} {i : Nat}
    (h1 : findPassportIdx (entries.map Prod.fst) (pTrim item) = none)
    (h2 : findNameIdx (entries.map Prod.fst) (pTrim item) item.name = some i) :
    consolidateStepAnn entries item =
      entries.set i (mergeRecords ((entries.map Prod.fst).getD i default) item,
                     (entries.getD i default).2 ++ [item]) := by
  simp only [consolidateStepAnn]
  rw [h1, h2]

theorem consolidateStepAnn_of_none {entries : List (ExtractedData × List ExtractedData)}
    {item : ExtractedData}
    (h1 : findPassportIdx (entries.map Prod.fst) (pTrim item) = none)
    (h2 : findNameIdx (entries.map Prod.fst) (pTrim item) item.name = none) :
    consolidateStepAnn entries item = entries ++ [(item, [item])] := by
  simp only [consolidateStepAnn]
  rw [h1, h2]

/-- Projecting away the provenance component of one instrumented step gives
the original step. -/
theorem map_fst_consolidateStepAnn (entries : List (ExtractedData × List ExtractedData))
    (item : ExtractedData) :
    (consolidateStepAnn entries item).map Prod.fst =
      consolidateStep (entries.map Prod.fst) item := by
  cases h : findPassportIdx (entries.map Prod.fst) (pTrim item) with
  | some i =>
    rw [consolidateStepAnn_of_pp_some h, consolidateStep_of_pp_some h, List.map_set]
  | none =>
    cases h2 : findNameIdx (entries.map Prod.fst) (pTrim item) item.name with
    | some i =>
      rw [consolidateStepAnn_of_name_some h h2, consolidateStep_of_name_some h h2,
        List.map_set]
    | none =>
      simp [consolidateStepAnn_of_none h h2, consolidateStep_of_none h h2]

/-- Projecting away the provenance of the instrumented consolidation gives
`consolidateData`. -/
theorem map_fst_consolidateAnn (l : List ExtractedData) :
    (consolidateAnn l).map Prod.fst = consolidateData l := by
  have aux : ∀ (l : List ExtractedData) (entries : List (ExtractedData × List ExtractedData)),
      (l.foldl consolidateStepAnn entries).map Prod.fst =
        l.foldl consolidateStep (entries.map Prod.fst) := by
    intro l
    induction l with
    | nil => intro entries; rfl
    | cons x xs ih =>
      intro entries
      simp only [List.foldl_cons]
      rw [ih, map_fst_consolidateStepAnn]
  simpa using aux l []

/-! ### The passport-number distinctness invariant -/

theorem distinctP_nil : DistinctP [] := by
  unfold DistinctP
  intro i j a b _ hi
  simp at hi

theorem DistinctP.set {l : List ExtractedData} {i : Nat} {a e : ExtractedData}
    (h : DistinctP l) (he : l[i]? = some e)
    (ha : pTrim a = pTrim e ∨ pTrim a = "" ∨
      (∀ (j : Nat) (b : ExtractedData), j ≠ i → l[j]? = some b → pTrim b ≠ pTrim a)) :
    DistinctP (l.set i a) := by
  have hilt : i < l.length := by
    rcases List.getElem?_eq_some_iff.1 he with ⟨h1, -⟩
    exact h1
  unfold DistinctP at h ⊢
  intro p q x y hpq hx hy hxy
  rw [List.getElem?_set] at hx hy
  by_cases hpi : i = p
  · subst hpi
    rw [if_pos rfl, if_pos hilt] at hx
    rw [if_neg hpq] at hy
    cases hx
    rcases ha with h1 | h1 | h1
    · rw [h1] at hxy ⊢
      exact h i q e y (Ne.symm hpq).symm he hy hxy
    · exact h1
    · exact absurd hxy.symm (h1 q y (fun hq => hpq hq.symm) hy)
  · rw [if_neg hpi] at hx
    by_cases hqi : i = q
    · subst hqi
      rw [if_pos rfl, if_pos hilt] at hy
      cases hy
      rcases ha with h1 | h1 | h1
      · rw [h1] at hxy
        exact h p i x e (fun hc => hpi hc.symm) hx he hxy
      · rw [hxy, h1]
      · exact absurd hxy (h1 p x (fun hc => hpi hc.symm) hx)
    · rw [if_neg hqi] at hy
      exact h p q x y hpq hx hy hxy

theorem DistinctP.append {l : List ExtractedData} {a : ExtractedData}
    (h : DistinctP l)
    (ha : pTrim a = "" ∨
      ∀ (j : Nat) (b : ExtractedData), l[j]? = some b → pTrim b ≠ pTrim a) :
    DistinctP (l ++ [a]) := by
  unfold DistinctP at h ⊢
  intro p q x y hpq hx hy hxy
  have hsome : ∀ {k : Nat} {c : ExtractedData}, (l ++ [a])[k]? = some c →
      l[k]? = some c ∨ (k = l.length ∧ c = a) := by
    intro k c hk
    by_cases hkl : k < l.length
    · rw [List.getElem?_append_left hkl] at hk
      exact Or.inl hk
    · have hk' := hk
      rw [List.getElem?_append_right (Nat.le_of_not_lt hkl)] at hk'
      have hlen : k - l.length < 1 := by
        rcases List.getElem?_eq_some_iff.1 hk' with ⟨h1, -⟩
        simpa using h1
      have : k = l.length := by omega
      subst this
      simp at hk'
      exact Or.inr ⟨rfl, hk'.symm⟩
  rcases hsome hx with hx' | ⟨hp, hxa⟩
  · rcases hsome hy with hy' | ⟨hq, hya⟩
    · exact h p q x y hpq hx' hy' hxy
    · subst hya
      rcases ha with h1 | h1
      · rw [hxy, h1]
      · exact absurd hxy (h1 p x hx')
  · subst hxa
    rcases hsome hy with hy' | ⟨hq, hya⟩
    · rcases ha with h1 | h1
      · exact h1
      · exact absurd hxy.symm (h1 q y hy')
    · exact absurd (hp.trans hq.symm) hpq

/-- One consolidation step preserves pairwise distinctness of non-empty
trimmed passport numbers: the passport lookup runs first, and the name
lookup can only write a passport number that no working passenger has. -/
theorem consolidateStep_distinct (acc : List ExtractedData) (item : ExtractedData)
    (h : DistinctP acc) : DistinctP (consolidateStep acc item) := by
  cases hpp : findPassportIdx acc (pTrim item) with
  | some i =>
    obtain ⟨hip, e, he, hpe⟩ := findPassportIdx_some hpp
    have hgd : acc.getD i default = e := by simp [List.getD_eq_getElem?_getD, he]
    rw [consolidateStep_of_pp_some hpp, hgd]
    have hep : e.passportNumber ≠ "" := passport_ne_of_pTrim_ne (hpe ▸ hip)
    exact h.set he (Or.inl (pTrim_merge_of_ne item hep))
  | none =>
    cases hnm : findNameIdx acc (pTrim item) item.name with
    | some i =>
      obtain ⟨e, he, hpred⟩ := findNameIdx_some hnm
      have hgd : acc.getD i default = e := by simp [List.getD_eq_getElem?_getD, he]
      rw [consolidateStep_of_name_some hpp hnm, hgd]
      by_cases hep : e.passportNumber = ""
      · have hm : pTrim (mergeRecords e item) = pTrim item := pTrim_merge_of_eq item hep
        by_cases hit : pTrim item = ""
        · exact h.set he (Or.inr (Or.inl (hm.trans hit)))
        · refine h.set he (Or.inr (Or.inr ?_))
          intro j b _ hb
          rw [hm]
          exact findPassportIdx_none hpp hit b (List.mem_iff_getElem?.mpr ⟨j, hb⟩)
      · exact h.set he (Or.inl (pTrim_merge_of_ne item hep))
    | none =>
      rw [consolidateStep_of_none hpp hnm]
      by_cases hit : pTrim item = ""
      · exact h.append (Or.inl hit)
      · refine h.append (Or.inr ?_)
        intro j b hb
        exact findPassportIdx_none hpp hit b (List.mem_iff_getElem?.mpr ⟨j, hb⟩)

/-- The working passenger list keeps distinct non-empty trimmed passport
numbers throughout the whole fold. -/
theorem consolidate_foldl_distinct (l : List ExtractedData) :
    ∀ acc, DistinctP acc → DistinctP (l.foldl consolidateStep acc) := by
  induction l with
  | nil => intro acc h; exact h
  | cons x xs ih => intro acc h; exact ih _ (consolidateStep_distinct acc x h)

theorem consolidateStep_trimsNE {acc : List ExtractedData} {item : ExtractedData}
    (h : TrimsNE acc) (hi : pTrim item ≠ "") : TrimsNE (consolidateStep acc item) := by
  have hset : ∀ (i : Nat) (e : ExtractedData), acc[i]? = some e →
      TrimsNE (acc.set i (mergeRecords e item)) := by
    intro i e he x hx
    rcases List.mem_or_eq_of_mem_set hx with hx' | rfl
    · exact h x hx'
    · by_cases hep : e.passportNumber = ""
      · rw [pTrim_merge_of_eq item hep]; exact hi
      · rw [pTrim_merge_of_ne item hep]
        exact h e (List.mem_iff_getElem?.mpr ⟨i, he⟩)
  cases hpp : findPassportIdx acc (pTrim item) with
  | some i =>
    obtain ⟨-, e, he, -⟩ := findPassportIdx_some hpp
    have hgd : acc.getD i default = e := by simp [List.getD_eq_getElem?_getD, he]
    rw [consolidateStep_of_pp_some hpp, hgd]
    exact hset i e he
  | none =>
    cases hnm : findNameIdx acc (pTrim item) item.name with
    | some i =>
      obtain ⟨e, he, -⟩ := findNameIdx_some hnm
      have hgd : acc.getD i default = e := by simp [List.getD_eq_getElem?_getD, he]
      rw [consolidateStep_of_name_some hpp hnm, hgd]
      exact hset i e he
    | none =>
      rw [consolidateStep_of_none hpp hnm]
      intro x hx
      rcases List.mem_append.1 hx with hx' | hx'
      · exact h x hx'
      · rw [List.mem_singleton.1 hx']; exact hi

theorem consolidate_foldl_trimsNE (l : List ExtractedData) :
    ∀ acc, TrimsNE acc → (∀ r ∈ l, pTrim r ≠ "") → TrimsNE (l.foldl consolidateStep acc) := by
  induction l with
  | nil => intro acc h _; exact h
  | cons x xs ih =>
    intro acc h hl
    exact ih _ (consolidateStep_trimsNE h (hl x (List.mem_cons_self x xs)))
      (fun r hr => hl r (List.mem_cons_of_mem x hr))

/-- When every working passenger already carries a pairwise-distinct
non-empty trimmed passport number, consolidation appends every record
unchanged: each record excludes every candidate in both lookups. -/
theorem consolidate_fixed (ps : List ExtractedData) :
    ∀ acc, DistinctP (acc ++ ps) → TrimsNE (acc ++ ps) →
      ps.foldl consolidateStep acc = acc ++ ps := by
  induction ps with
  | nil => intro acc _ _; simp
  | cons p ps' ih =>
    intro acc hd ht
    have hplen : (acc ++ p :: ps')[acc.length]? = some p := by
      rw [List.getElem?_append_right (Nat.le_refl _)]
      simp
    have hpt : pTrim p ≠ "" := ht p (by simp)
    have haccne : ∀ x ∈ acc, pTrim x ≠ pTrim p := by
      intro x hx hxp
      rcases List.mem_iff_getElem?.1 hx with ⟨j, hj⟩
      have hjlt : j < acc.length := by
        rcases List.getElem?_eq_some_iff.1 hj with ⟨h1, -⟩
        exact h1
      have hj' : (acc ++ p :: ps')[j]? = some x := by
        rw [List.getElem?_append_left hjlt]; exact hj
      have := hd j acc.length x p (Nat.ne_of_lt hjlt) hj' hplen hxp
      exact ht x (List.mem_append_left _ hx) this
    have hstep : consolidateStep acc p = acc ++ [p] := by
      have h1 : findPassportIdx acc (pTrim p) = none := by
        unfold findPassportIdx
        rw [if_pos hpt, List.findIdx?_eq_none_iff]
        intro x hx
        simpa using haccne x hx
      have h2 : findNameIdx acc (pTrim p) p.name = none := by
        unfold findNameIdx
        split
        · rw [List.findIdx?_eq_none_iff]
          intro x hx
          unfold nameLookupPred
          rw [if_pos ⟨hpt, ht x (List.mem_append_left _ hx), fun hc => haccne x hx hc.symm⟩]
        · rfl
      rw [consolidateStep_of_none h1 h2]
    rw [List.foldl_cons, hstep]
    have hassoc : (acc ++ [p]) ++ ps' = acc ++ p :: ps' := by simp
    rw [ih (acc ++ [p]) (hassoc ▸ hd) (hassoc ▸ ht), hassoc]

/-! ### Provenance invariant: which input records end up in one passenger -/

theorem consolidateStepAnn_good {entries : List (ExtractedData × List ExtractedData)}
    {item : ExtractedData}
    (hitem : item.passportNumber ≠ "" → pTrim item ≠ "")
    (h : ∀ e ∈ entries, GoodEntry e) :
    ∀ e ∈ consolidateStepAnn entries item, GoodEntry e := by
  cases hpp : findPassportIdx (entries.map Prod.fst) (pTrim item) with
  | some i =>
    obtain ⟨hip, x, hx, hpx⟩ := findPassportIdx_some hpp
    rw [List.getElem?_map] at hx
    cases hent : entries[i]? with
    | none => rw [hent] at hx; exact absurd hx (by simp)
    | some ent =>
      rw [hent] at hx
      have hx1 : ent.1 = x := by simpa using hx
      have hgd1 : (entries.map Prod.fst).getD i default = ent.1 := by
        simp [List.getD_eq_getElem?_getD, List.getElem?_map, hent]
      have hgd2 : entries.getD i default = ent := by
        simp [List.getD_eq_getElem?_getD, hent]
      rw [consolidateStepAnn_of_pp_some hpp, hgd1, hgd2]
      intro e he
      rcases List.mem_or_eq_of_mem_set he with he' | rfl
      · exact h e he'
      · have hgood := h ent (List.mem_iff_getElem?.mpr ⟨i, hent⟩)
        have hte : pTrim ent.1 = pTrim item := hx1 ▸ hpx
        have hep : ent.1.passportNumber ≠ "" :=
          passport_ne_of_pTrim_ne (hte ▸ hip)
        have hmp : pTrim (mergeRecords ent.1 item) = pTrim ent.1 :=
          pTrim_merge_of_ne item hep
        constructor
        · intro _
          rw [hmp, hte]; exact hip
        · intro r hr
          rcases List.mem_append.1 hr with hr' | hr'
          · rcases hgood.2 r hr' with h1 | h1
            · exact Or.inl h1
            · exact Or.inr (by rw [h1, hmp])
          · rw [List.mem_singleton.1 hr']
            exact Or.inr (by rw [hmp, hte])
  | none =>
    cases hnm : findNameIdx (entries.map Prod.fst) (pTrim item) item.name with
    | some i =>
      obtain ⟨x, hx, hpred⟩ := findNameIdx_some hnm
      rw [List.getElem?_map] at hx
      cases hent : entries[i]? with
      | none => rw [hent] at hx; exact absurd hx (by simp)
      | some ent =>
        rw [hent] at hx
        have hx1 : ent.1 = x := by simpa using hx
        have hgd1 : (entries.map Prod.fst).getD i default = ent.1 := by
          simp [List.getD_eq_getElem?_getD, List.getElem?_map, hent]
        have hgd2 : entries.getD i default = ent := by
          simp [List.getD_eq_getElem?_getD, hent]
        rw [consolidateStepAnn_of_name_some hpp hnm, hgd1, hgd2]
        have hno := nameLookupPred_no_cross (hx1 ▸ hpred)
        have hgood := h ent (List.mem_iff_getElem?.mpr ⟨i, hent⟩)
        intro e he
        rcases List.mem_or_eq_of_mem_set he with he' | rfl
        · exact h e he'
        · by_cases hep : ent.1.passportNumber = ""
          · have hmp : pTrim (mergeRecords ent.1 item) = pTrim item :=
              pTrim_merge_of_eq item hep
            constructor
            · intro hne
              rw [hmp]
              apply hitem
              intro hc
              apply hne
              rw [mergeRecords_passport]
              simp [jsOr, hep, hc]
            · intro r hr
              rcases List.mem_append.1 hr with hr' | hr'
              · rcases hgood.2 r hr' with h1 | h1
                · exact Or.inl h1
                · exact Or.inl (by rw [h1, pTrim_of_passport_empty hep])
              · rw [List.mem_singleton.1 hr']
                exact Or.inr hmp.symm
          · have hmp : pTrim (mergeRecords ent.1 item) = pTrim ent.1 :=
              pTrim_merge_of_ne item hep
            have htne : pTrim ent.1 ≠ "" := hgood.1 hep
            constructor
            · intro _; rw [hmp]; exact htne
            · intro r hr
              rcases List.mem_append.1 hr with hr' | hr'
              · rcases hgood.2 r hr' with h1 | h1
                · exact Or.inl h1
                · exact Or.inr (by rw [h1, hmp])
              · rw [List.mem_singleton.1 hr']
                by_cases hip : pTrim item = ""
                · exact Or.inl hip
                · refine Or.inr ?_
                  rw [hmp]
                  by_contra hne
                  exact hno ⟨hip, htne, hne⟩
    | none =>
      rw [consolidateStepAnn_of_none hpp hnm]
      intro e he
      rcases List.mem_append.1 he with he' | he'
      · exact h e he'
      · rw [List.mem_singleton.1 he']
        exact ⟨hitem, fun r hr => Or.inr (by rw [List.mem_singleton.1 hr])⟩

/-- Every instrumented passenger produced by `consolidateAnn` satisfies the
provenance invariant, provided no input record has a whitespace-only
passport field. -/
theorem consolidateAnn_good (l : List ExtractedData)
    (hl : ∀ r ∈ l, r.passportNumber ≠ "" → pTrim r ≠ "") :
    ∀ e ∈ consolidateAnn l, GoodEntry e := by
  have aux : ∀ (l : List ExtractedData) (entries : List (ExtractedData × List ExtractedData)),
      (∀ r ∈ l, r.passportNumber ≠ "" → pTrim r ≠ "") →
      (∀ e ∈ entries, GoodEntry e) →
      ∀ e ∈ l.foldl consolidateStepAnn entries, GoodEntry e := by
    intro l
    induction l with
    | nil => intro entries _ h; exact h
    | cons x xs ih =>
      intro entries hl h
      exact ih _ (fun r hr => hl r (List.mem_cons_of_mem x hr))
        (consolidateStepAnn_good (hl x (List.mem_cons_self x xs)) h)
  exact aux l [] hl (by simp)

/-! ### Character-level facts about the normalization pipeline -/

theorem splitChar_subset {sep : Char} :
    ∀ {cs : List Char} {w : List Char}, w ∈ splitChar sep cs → ∀ c ∈ w, c ∈ cs := by
  intro cs
  induction cs with
  | nil =>
    intro w hw c hc
    simp [splitChar] at hw
    subst hw
    simp at hc
  | cons c0 rest ih =>
    intro w hw c hc
    rw [splitChar] at hw
    cases hs : splitChar sep rest with
    | nil =>
      rw [hs] at hw
      simp at hw
      subst hw
      simp at hc
      simp [hc]
    | cons w0 ws0 =>
      rw [hs] at hw
      simp only [] at hw
      by_cases hc0 : c0 = sep
      · rw [if_pos hc0] at hw
        rcases List.mem_cons.1 hw with rfl | hw'
        · simp at hc
        · have : w ∈ splitChar sep rest := hs ▸ hw'
          exact List.mem_cons_of_mem c0 (ih this c hc)
      · rw [if_neg hc0] at hw
        rcases List.mem_cons.1 hw with rfl | hw'
        · rcases List.mem_cons.1 hc with rfl | hc'
          · exact List.mem_cons_self _ _
          · have : w0 ∈ splitChar sep rest := hs ▸ List.mem_cons_self w0 ws0
            exact List.mem_cons_of_mem c0 (ih this c hc')
        · have : w ∈ splitChar sep rest := hs ▸ List.mem_cons_of_mem w0 hw'
          exact List.mem_cons_of_mem c0 (ih this c hc)

theorem mem_collapseWS : ∀ {l : List Char} {c : Char}, c ∈ collapseWS l → c = ' ' ∨ c ∈ l := by
  intro l
  induction l with
  | nil =>
    intro c hc
    simp [collapseWS] at hc
  | cons c0 tail ih =>
    intro c hc
    cases tail with
    | nil =>
      simp only [collapseWS, List.mem_singleton] at hc
      subst hc
      by_cases h : jsWS c0
      · rw [if_pos h]; exact Or.inl rfl
      · rw [if_neg h]; exact Or.inr (List.mem_singleton.2 rfl)
    | cons d rest =>
      rw [collapseWS] at hc
      by_cases hws : (jsWS c0 && jsWS d) = true
      · rw [if_pos hws] at hc
        rcases ih hc with h | h
        · exact Or.inl h
        · exact Or.inr (List.mem_cons_of_mem c0 h)
      · rw [if_neg hws] at hc
        rcases List.mem_cons.1 hc with rfl | h
        · by_cases h0 : jsWS c0
          · rw [if_pos h0]; exact Or.inl rfl
          · rw [if_neg h0]; exact Or.inr (List.mem_cons_self _ _)
        · rcases ih h with h' | h'
          · exact Or.inl h'
          · exact Or.inr (List.mem_cons_of_mem c0 h')

theorem trimChars_subset {cs : List Char} {c : Char} (h : c ∈ trimChars cs) : c ∈ cs := by
  unfold trimChars at h
  rw [List.mem_reverse] at h
  have h1 := (List.dropWhile_sublist jsWS).subset h
  rw [List.mem_reverse] at h1
  exact (List.dropWhile_sublist jsWS).subset h1

theorem mem_joinSpace : ∀ {ws : List (List Char)} {c : Char},
    c ∈ joinSpace ws → c = ' ' ∨ ∃ w ∈ ws, c ∈ w := by
  intro ws
  induction ws with
  | nil =>
    intro c hc
    simp [joinSpace] at hc
  | cons w tail ih =>
    intro c hc
    cases tail with
    | nil =>
      rw [joinSpace] at hc
      exact Or.inr ⟨w, List.mem_singleton.2 rfl, hc⟩
    | cons w2 ws2 =>
      have heq : joinSpace (w :: w2 :: ws2) = w ++ ' ' :: joinSpace (w2 :: ws2) := rfl
      rw [heq] at hc
      rcases List.mem_append.1 hc with h | h
      · exact Or.inr ⟨w, List.mem_cons_self _ _, h⟩
      · rcases List.mem_cons.1 h with rfl | h'
        · exact Or.inl rfl
        · rcases ih h' with h'' | ⟨w', hw', hc'⟩
          · exact Or.inl h''
          · exact Or.inr ⟨w', List.mem_cons_of_mem w hw', hc'⟩

/-- Every character of a normalized name is a space or was kept by the
`[^a-z\s]` filter. -/
theorem normalizeName_chars {name : String} {c : Char}
    (h : c ∈ (normalizeName name).toList) : c = ' ' ∨ isKept c = true := by
  have h0 : (normalizeName name).toList = joinSpace (normalizeWords name) := rfl
  rw [h0] at h
  rcases mem_joinSpace h with h1 | ⟨w, hw, hc⟩
  · exact Or.inl h1
  · unfold normalizeWords at hw
    split at hw
    · simp at hw
    · have hw' := (List.dropWhile_sublist isHonorific).subset hw
      have hcm := splitChar_subset hw' c hc
      have := trimChars_subset hcm
      rcases mem_collapseWS this with h2 | h2
      · exact Or.inl h2
      · exact Or.inr (List.mem_filter.1 h2).2

/-! ### Insertion sort produces a permutation -/

theorem insertWord_perm (w : List Char) : ∀ l, List.Perm (insertWord w l) (w :: l) := by
  intro l
  induction l with
  | nil => exact List.Perm.refl _
  | cons x xs ih =>
    rw [insertWord]
    by_cases h : lexLe w x = true
    · rw [if_pos h]
    · rw [if_neg h]
      exact (ih.cons x).trans (List.Perm.swap w x xs)

theorem sortWords_perm : ∀ l, List.Perm (sortWords l) l := by
  intro l
  induction l with
  | nil => exact List.Perm.refl _
  | cons w ws ih =>
    rw [sortWords]
    exact (insertWord_perm w (sortWords ws)).trans (ih.cons w)

/-! ### Claim theorems -/

/-- C1 (counterexample): the claim predicts that any two ≥2-word
word-permutation names match, in particular
`namesMatch("John Smith", "Smith John") = true`; the code returns `false`
because it additionally requires the first words to be equal
("john" ≠ "smith"), even though the two names are word permutations of
each other with 2 words on each side. -/
theorem C1_counterexample :
    namesMatch "John Smith" "Smith John" = false ∧
    sortWords (wordsOf (normalizeName "John Smith")) =
      sortWords (wordsOf (normalizeName "Smith John")) ∧
    (wordsOf (normalizeName "John Smith")).length = 2 ∧
    (wordsOf (normalizeName "Smith John")).length = 2 := by
  refine ⟨by decide, by decide, by decide, by decide⟩

/-- C1 (amended): for raw names whose normalized forms each have ≥2 words,
are word-for-word permutations of each other (equal after lexicographically
sorting their word lists) AND share the same first word, `namesMatch`
returns true; `namesMatch("John Smith", "Smith John")` is false because the
first words differ, but e.g. permutations of the non-leading words match. -/
theorem C1_names_match_word_permutation :
    (∀ name1 name2 : String,
      2 ≤ (wordsOf (normalizeName name1)).length →
      2 ≤ (wordsOf (normalizeName name2)).length →
      sortWords (wordsOf (normalizeName name1)) =
        sortWords (wordsOf (normalizeName name2)) →
      (wordsOf (normalizeName name1)).head? = (wordsOf (normalizeName name2)).head? →
      namesMatch name1 name2 = true) ∧
    namesMatch "John Smith Lee" "John Lee Smith" = true := by
  refine ⟨?_, by decide⟩
  intro n1 n2 h1 h2 hsort hhead
  have hperm : List.Perm (wordsOf (normalizeName n1)) (wordsOf (normalizeName n2)) :=
    ((sortWords_perm (wordsOf (normalizeName n1))).symm.trans
      (hsort ▸ sortWords_perm (wordsOf (normalizeName n2))))
  have hne1 : normalizeName n1 ≠ "" := by
    intro he
    rw [he] at h1
    exact absurd h1 (by decide)
  have hne2 : normalizeName n2 ≠ "" := by
    intro he
    rw [he] at h2
    exact absurd h2 (by decide)
  simp only [namesMatch]
  rw [if_neg (not_or.2 ⟨hne1, hne2⟩)]
  by_cases heq : normalizeName n1 = normalizeName n2
  · rw [if_pos heq]
  · rw [if_neg heq]
    rw [if_neg (by
      intro hc
      rcases hc with hc | hc
      · rw [hc] at h1; exact absurd h1 (by decide)
      · rw [hc] at h2; exact absurd h2 (by decide))]
    rw [if_neg (not_not_intro hhead)]
    have hfil : (wordsOf (normalizeName n1)).filter
        (fun w => (wordsOf (normalizeName n2)).contains w) = wordsOf (normalizeName n1) := by
      rw [List.filter_eq_self]
      intro a ha
      exact List.elem_iff.mpr (hperm.mem_iff.1 ha)
    rw [hfil]
    simpa using h1

/-- C1 (witness): the amended theorem applied to a concrete pair whose
normalized forms are 3-word permutations sharing the first word. -/
theorem C1_names_match_word_permutation_witness :
    namesMatch "Anees Fatima Khan" "Anees Khan Fatima" = true :=
  C1_names_match_word_permutation.1 "Anees Fatima Khan" "Anees Khan Fatima"
    (by decide) (by decide) (by decide) (by decide)

/-- C2: distinct non-empty trimmed passport numbers are never merged into
one passenger: (i) the instrumented consolidation projects to
`consolidateData`; (ii) for any input without whitespace-only passport
fields (the §3 data-model invariant), any two records merged into the same
passenger with non-empty trimmed passport numbers agree on them — so two
records with differing non-empty trimmed passport numbers never share a
passenger; (iii) `consolidate([{P1, John Smith}, {P2, John Smith}])` yields
the two records unmerged. -/
theorem C2_distinct_passports_never_merge :
    (∀ l : List ExtractedData, (consolidateAnn l).map Prod.fst = consolidateData l) ∧
    (∀ l : List ExtractedData,
      (∀ r ∈ l, r.passportNumber ≠ "" → pTrim r ≠ "") →
      ∀ e ∈ consolidateAnn l, ∀ r ∈ e.2, ∀ s ∈ e.2,
        pTrim r ≠ "" → pTrim s ≠ "" → pTrim r = pTrim s) ∧
    consolidateData [c2r1, c2r2] = [c2r1, c2r2] := by
  refine ⟨map_fst_consolidateAnn, ?_, by decide⟩
  intro l hl e he r hr s hs hrne hsne
  obtain ⟨-, hids⟩ := consolidateAnn_good l hl e he
  rcases hids r hr with h1 | h1
  · exact absurd h1 hrne
  rcases hids s hs with h2 | h2
  · exact absurd h2 hsne
  rw [h1, h2]

/-- C2 (witness): the separation part of the theorem applied to a concrete
one-record input whose single passenger contains the record itself. -/
theorem C2_distinct_passports_never_merge_witness : pTrim c2r1 = pTrim c2r1 :=
  C2_distinct_passports_never_merge.2.1 [c2r1] (by decide)
    (c2r1, [c2r1]) (by decide) c2r1 (by decide) c2r1 (by decide) (by decide) (by decide)

/-- C3: in a merge, the identity fields (`passportNumber`, `dateOfBirth`,
`nationality`, `passportIssueDate`, `expiryDate`) keep the existing value
unless it is empty (first-writer-wins), and the itinerary fields
(`visaType`, `flightNumber`, `bookingReference`, `ticketNumber`,
`departure`, `arrival`, `transitStop`, `seatNumber`, `inflightMeal`) take
the incoming value unless it is empty (last-writer-wins); two records
sharing passport "P1" consolidate to one record with the first record's
name and the second record's flight number. -/
theorem C3_merge_field_policy :
    (∀ existing item : ExtractedData,
      (mergeRecords existing item).passportNumber =
        (if existing.passportNumber = "" then item.passportNumber else existing.passportNumber) ∧
      (mergeRecords existing item).dateOfBirth =
        (if existing.dateOfBirth = "" then item.dateOfBirth else existing.dateOfBirth) ∧
      (mergeRecords existing item).nationality =
        (if existing.nationality = "" then item.nationality else existing.nationality) ∧
      (mergeRecords existing item).passportIssueDate =
        (if existing.passportIssueDate = "" then item.passportIssueDate
         else existing.passportIssueDate) ∧
      (mergeRecords existing item).expiryDate =
        (if existing.expiryDate = "" then item.expiryDate else existing.expiryDate) ∧
      (mergeRecords existing item).visaType =
        (if item.visaType = "" then existing.visaType else item.visaType) ∧
      (mergeRecords existing item).flightNumber =
        (if item.flightNumber = "" then existing.flightNumber else item.flightNumber) ∧
      (mergeRecords existing item).bookingReference =
        (if item.bookingReference = "" then existing.bookingReference
         else item.bookingReference) ∧
      (mergeRecords existing item).ticketNumber =
        (if item.ticketNumber = "" then existing.ticketNumber else item.ticketNumber) ∧
      (mergeRecords existing item).departure =
        (if item.departure = "" then existing.departure else item.departure) ∧
      (mergeRecords existing item).arrival =
        (if item.arrival = "" then existing.arrival else item.arrival) ∧
      (mergeRecords existing item).transitStop =
        (if item.transitStop = "" then existing.transitStop else item.transitStop) ∧
      (mergeRecords existing item).seatNumber =
        (if item.seatNumber = "" then existing.seatNumber else item.seatNumber) ∧
      (mergeRecords existing item).inflightMeal =
        (if item.inflightMeal = "" then existing.inflightMeal else item.inflightMeal)) ∧
    consolidateData [c2r1, c3item] =
      [{ name := "John Smith", passportNumber := "P1", flightNumber := "AA100" }] := by
  refine ⟨?_, by decide⟩
  intro existing item
  exact ⟨rfl, rfl, rfl, rfl, rfl, rfl, rfl, rfl, rfl, rfl, rfl, rfl, rfl, rfl⟩

/-- C4 (counterexample): the claim predicts one variant per `/`-separated
segment, with the honorific dropped; the code's `normalizeName` has no `/`
handling at all — `/` is stripped like any other non-letter, gluing
"JOHN" and "SMITH" into one word, and "mrs" survives; the spec-side
`variantsOf` (modelled from the spec's words as `specVariantsOf`) would
instead produce the two variants. -/
theorem C4_counterexample :
    normalizeName "SMITH JOHN/SMITH JANE MRS" = "smith johnsmith jane mrs" ∧
    specVariantsOf "SMITH JOHN/SMITH JANE MRS" = ["smith john", "smith jane"] ∧
    (specVariantsOf "SMITH JOHN/SMITH JANE MRS").contains
      (normalizeName "SMITH JOHN/SMITH JANE MRS") = false ∧
    (wordsOf (normalizeName "SMITH JOHN/SMITH JANE MRS")).contains ("mrs".toList) = true := by
  refine ⟨by decide, by decide, by decide, by decide⟩

/-- C4 (amended): the code's name normalization produces a single
normalized string, not one variant per `/`-separated segment: `/` is
removed like every other non-letter character (so the words adjacent to it
are concatenated and never contain `/`), and the honorific of a second
segment is not dropped;
`normalizeName("SMITH JOHN/SMITH JANE MRS") = "smith johnsmith jane mrs"`. -/
theorem C4_amended :
    (∀ name : String, ((normalizeName name).toList.contains '/') = false) ∧
    normalizeName "ANNA RAY/BEN RAY MR" = "anna rayben ray mr" := by
  refine ⟨?_, by decide⟩
  intro name
  cases hc : ((normalizeName name).toList.contains '/') with
  | false => rfl
  | true =>
    exfalso
    have hmem : '/' ∈ (normalizeName name).toList := List.elem_iff.mp hc
    rcases normalizeName_chars hmem with h | h
    · exact absurd h (by decide)
    · exact absurd h (by decide)

/-- C5 (counterexample): the claim predicts every standalone honorific
token is dropped wherever it occurs; the code keeps "mrs" when it is not
at the beginning: `normalizeName "SMITH JANE MRS" = "smith jane mrs"`. -/
theorem C5_counterexample :
    normalizeName "SMITH JANE MRS" = "smith jane mrs" ∧
    (wordsOf (normalizeName "SMITH JANE MRS")).contains ("mrs".toList) = true := by
  refine ⟨by decide, by decide⟩

/-- Generic: the head of `dropWhile p` never satisfies `p`. -/
theorem head?_dropWhile_all {α : Type} (p : α → Bool) (l : List α) :
    ((l.dropWhile p).head?.all (fun x => !p x)) = true := by
  have h := List.head?_dropWhile_not p l
  cases hh : (l.dropWhile p).head? with
  | none => rfl
  | some x =>
    rw [hh] at h
    simpa using h

/-- C5 (amended): honorific tokens are dropped only from the beginning of
the word list (repeatedly, while the first word is a honorific); a
honorific occurring later is retained: the first word of the normalized
word list is never a honorific, every leading honorific run is removed
(`normalizeName "MRS DR JANE SMITH" = "jane smith"`), and
`normalizeName "JANE MRS SMITH" = "jane mrs smith"` keeps the inner one. -/
theorem C5_amended :
    (∀ name : String,
      ((normalizeWords name).head?.all (fun w => !isHonorific w)) = true) ∧
    normalizeName "MRS DR JANE SMITH" = "jane smith" ∧
    normalizeName "JANE MRS SMITH" = "jane mrs smith" := by
  refine ⟨?_, by decide, by decide⟩
  intro name
  unfold normalizeWords
  split
  · rfl
  · exact head?_dropWhile_all isHonorific _

/-- C6 (counterexample): `consolidate` is not idempotent.  With three
records — two passportless non-matching names and a passported record that
name-matches the first — the first pass keeps two passengers but rewrites
the first passenger's name (passport-carrying names are preferred), so the
second pass name-matches the two remaining passengers and merges them:
re-running `consolidate` on its own output changes the list. -/
theorem C6_counterexample :
    decide (consolidateData (consolidateData [c6a, c6b, c6t]) =
      consolidateData [c6a, c6b, c6t]) = false ∧
    (consolidateData [c6a, c6b, c6t]).length = 2 ∧
    (consolidateData (consolidateData [c6a, c6b, c6t])).length = 1 := by
  refine ⟨by decide, by decide, by decide⟩

/-- C6 (amended): `consolidate` is idempotent on inputs in which every
record carries a non-empty trimmed passport number: the output then has
pairwise-distinct non-empty trimmed passport numbers, so a second run
excludes every candidate in both lookups and appends every passenger
unchanged.  (In general re-running may merge further records, as the
counterexample shows.) -/
theorem C6_consolidate_idempotent_on_passported :
    ∀ l : List ExtractedData, (∀ r ∈ l, pTrim r ≠ "") →
      consolidateData (consolidateData l) = consolidateData l := by
  intro l hl
  have hd : DistinctP (consolidateData l) := consolidate_foldl_distinct l [] distinctP_nil
  have ht : TrimsNE (consolidateData l) :=
    consolidate_foldl_trimsNE l [] (by intro x hx; simp at hx) hl
  have hfix := consolidate_fixed (consolidateData l) [] (by simpa using hd) (by simpa using ht)
  calc consolidateData (consolidateData l)
      = (consolidateData l).foldl consolidateStep [] := rfl
    _ = [] ++ consolidateData l := hfix
    _ = consolidateData l := by simp

/-- C6 (witness): the amended theorem applied to a concrete one-record
passported input. -/
theorem C6_consolidate_idempotent_on_passported_witness :
    consolidateData (consolidateData [c6w]) = consolidateData [c6w] :=
  C6_consolidate_idempotent_on_passported [c6w] (by decide)

/-- C7: `formatDate` returns `""` for an absent input, returns an input
already matching `DD-MMM-YYYY` unchanged, reformats a parseable date to
that pattern (`formatDate "1990-03-15" = "15-Mar-1990"`, with the JS `Date`
built-in modelled for ISO dates in a UTC environment), and returns any
unparseable input unchanged (`formatDate "not a date" = "not a date"`);
being a total function, it never throws and never drops data. -/
theorem C7_formatDate_spec :
    formatDate "" = "" ∧
    (∀ s, matchesDDMMMYYYY s = true → formatDate s = s) ∧
    formatDate "1990-03-15" = "15-Mar-1990" ∧
    formatDate "not a date" = "not a date" ∧
    (∀ s y m d, jsParseDate s = some (y, m, d) → matchesDDMMMYYYY s = false →
      formatDate s = pad2 d ++ "-" ++ monthsEn.getD (m - 1) "" ++ "-" ++ toString y) ∧
    (∀ s, jsParseDate s = none → matchesDDMMMYYYY s = false → formatDate s = s) := by
  refine ⟨rfl, ?_, by decide, by decide, ?_, ?_⟩
  · intro s h
    have hs : s ≠ "" := by rintro rfl; exact absurd h (by decide)
    unfold formatDate
    rw [if_neg hs, if_pos h]
  · intro s y m d hp hm
    have hs : s ≠ "" := by rintro rfl; simp [jsParseDate] at hp
    unfold formatDate
    rw [if_neg hs, if_neg (by simp [hm]), hp]
  · intro s hp hm
    by_cases hs : s = ""
    · rw [hs]; rfl
    · unfold formatDate
      rw [if_neg hs, if_neg (by simp [hm]), hp]

/-- C7 (witness): the regex branch and the failure branch of the theorem
applied at concrete inputs. -/
theorem C7_formatDate_spec_witness :
    formatDate "15-Mar-1990" = "15-Mar-1990" ∧ formatDate "1990-13-40" = "1990-13-40" :=
  ⟨C7_formatDate_spec.2.1 "15-Mar-1990" (by decide),
   C7_formatDate_spec.2.2.2.2.2 "1990-13-40" (by decide) (by decide)⟩

/-- C8: a name whose normalized form is empty (an absent name, or one with
no letters) never matches anything: `namesMatch` returns false whenever
either side normalizes to the empty string. -/
theorem C8_empty_normalized_never_matches :
    ∀ name1 name2 : String,
      normalizeName name1 = "" ∨ normalizeName name2 = "" →
      namesMatch name1 name2 = false := by
  intro n1 n2 h
  simp only [namesMatch]
  rw [if_pos h]

/-- C8 (witness): `namesMatch "" "John Smith" = false` via the theorem. -/
theorem C8_empty_normalized_never_matches_witness :
    namesMatch "" "John Smith" = false :=
  C8_empty_normalized_never_matches "" "John Smith" (Or.inl (by decide))

/-- C9: `consolidateData` is a total function over arbitrary record lists
(in this embedding it is definitionally total and always returns a list):
the output never has more passengers than input records, and records whose
fields are all empty take part in no matching at all — each one is appended
as its own passenger. -/
theorem C9_consolidate_total :
    (∀ l : List ExtractedData, (consolidateData l).length ≤ l.length) ∧
    (∀ n : Nat, (consolidateData (List.replicate n emptyRecord)).length = n) := by
  constructor
  · have hstep : ∀ (acc : List ExtractedData) (item : ExtractedData),
        (consolidateStep acc item).length ≤ acc.length + 1 := by
      intro acc item
      cases hpp : findPassportIdx acc (pTrim item) with
      | some i => rw [consolidateStep_of_pp_some hpp]; simp
      | none =>
        cases hnm : findNameIdx acc (pTrim item) item.name with
        | some i => rw [consolidateStep_of_name_some hpp hnm]; simp
        | none => rw [consolidateStep_of_none hpp hnm]; simp
    have aux : ∀ (l : List ExtractedData) (acc : List ExtractedData),
        (l.foldl consolidateStep acc).length ≤ acc.length + l.length := by
      intro l
      induction l with
      | nil => intro acc; simp
      | cons x xs ih =>
        intro acc
        calc (List.foldl consolidateStep (consolidateStep acc x) xs).length
            ≤ (consolidateStep acc x).length + xs.length := ih _
          _ ≤ acc.length + 1 + xs.length := Nat.add_le_add_right (hstep acc x) _
          _ = acc.length + (x :: xs).length := by simp; omega
    intro l
    simpa using aux l []
  · have hstep : ∀ acc : List ExtractedData,
        consolidateStep acc emptyRecord = acc ++ [emptyRecord] := by
      intro acc
      apply consolidateStep_of_none
      · unfold findPassportIdx
        exact if_neg (by decide)
      · unfold findNameIdx
        exact if_neg (by decide)
    have aux : ∀ (n : Nat) (acc : List ExtractedData),
        (List.replicate n emptyRecord).foldl consolidateStep acc =
          acc ++ List.replicate n emptyRecord := by
      intro n
      induction n with
      | zero => intro acc; simp
      | succ k ih =>
        intro acc
        rw [List.replicate_succ, List.foldl_cons, hstep, ih]
        simp
    intro n
    have := aux n []
    simp only [consolidateData, this, List.nil_append, List.length_replicate]

/-- C10: no two distinct passengers in the output of `consolidateData`
carry the same non-empty trimmed passport number — if two output positions
have equal trimmed passport numbers, that common value is empty.  This
holds because the passport-number lookup runs before any name-based merge,
and the name-based merge writes a passport number only into a passenger
whose trimmed passport number was empty, and only when no passenger has
that number. -/
theorem C10_output_passports_distinct :
    ∀ (l : List ExtractedData) (i j : Nat) (a b : ExtractedData), i ≠ j →
      (consolidateData l)[i]? = some a → (consolidateData l)[j]? = some b →
      pTrim a = pTrim b → pTrim a = "" := by
  intro l
  exact consolidate_foldl_distinct l [] distinctP_nil

/-- C10 (witness): the theorem applied to two distinct passportless
passengers of a concrete output. -/
theorem C10_output_passports_distinct_witness : pTrim w10a = "" :=
  C10_output_passports_distinct [w10a, w10b] 0 1 w10a w10b (by decide)
    (by decide) (by decide) (by decide)

end ScanGo
